import Mathlib

/-!
Verification of the Manalyze (Spike Guard) driver, `src/main.cpp`.

The driver is embedded shallowly: the external collaborators it calls
(the filesystem, the PE parsing engine `sg::PE`, and the yara rule
scanner) are modelled as an oracle `Env` of pure functions, and every
print statement of the driver becomes an event `Ev` appended to a
stdout or stderr event list.  Lines that print nothing but a newline
are not modelled.  `pe.get_path()` is modelled as the path the `sg::PE`
object was constructed from.
-/

/-- A yara match: its metadata, as an association list from key to value
(`(*it)->operator[](key)` is `metaD m key`). -/
abbrev YMatch := List (String × String)

/-- Metadata lookup on a match; empty string when the key is absent. -/
def metaD (m : YMatch) (k : String) : String :=
  ((m.find? (fun kv => kv.1 == k)).map Prod.snd).getD ""

/-- The oracle for everything outside `main.cpp`:
`fexists p` is `boost::filesystem::exists(p)`;
`isDir p` is `boost::filesystem::is_directory(p)`;
`children p` is the list produced by `boost::filesystem::directory_iterator`
on `p`, in iteration order;
`peValid p` is `sg::PE(p).is_valid()`;
`loadRules f` is whether `yara::Yara::load_rules(f)` succeeds;
`scanMatches f p` is the match list of `scan_file(p)` under rule file `f`. -/
structure Env where
  fexists : String → Bool
  isDir : String → Bool
  children : String → List String
  peValid : String → Bool
  loadRules : String → Bool
  scanMatches : String → String → List YMatch

/-- The parsed command line (`po::variables_map`):
`pe = none` models `vm.count("pe") == 0`, likewise `dump` and `extract`;
the Bool fields model `vm.count(...) != 0` for the flag options. -/
structure Args where
  help : Bool
  pe : Option (List String)
  recursive : Bool
  dump : Option (List String)
  hashes : Bool
  extract : Option String
  peid : Bool
  clamav : Bool
deriving Repr, DecidableEq

/-- The input files, `vm["pe"]` (empty when absent; only read after
`parse_args` succeeded, which requires `pe` to be present). -/
def Args.peList (a : Args) : List String := a.pe.getD []

/-- One print statement of the driver. -/
inductive Ev where
  | banner
  | usage
  | errCmdline
  | errNotFound (path : String)
  | errPeidLoad
  | errClamavLoad
  | errParseFail (path : String)
  | errFileTypeHeader
  | errFileType (description : String)
  | dumpDos
  | dumpPe
  | dumpOpt
  | dumpSections
  | dumpImports
  | dumpExports
  | dumpResources (computeHashes : Bool)
  | dumpVersion
  | dumpDebug
  | dumpRelocations
  | dumpTls
  | dumpCertificates
  | dumpSummary
  | extractResources (dir : String)
  | dumpHashes
  | peidHeader
  | peidMatch (packerName : String)
  | clamavHeader
  | clamavMatch (signature : String)
  | separator
deriving Repr, DecidableEq

/-- Function `parse_args` of `main.cpp`: validates the command line.
`cmdline = none` models a `po::error` thrown by the boost parser.
Returns (validity, what was printed on stdout, what was printed on
stderr).  The source prints the usage on `--help` or a missing `pe`
argument, and reports the first nonexistent input file. -/
def parse_args (env : Env) (cmdline : Option Args) :
    Bool × List Ev × List Ev :=
  match cmdline with
  | none => (false, [], [Ev.errCmdline])
  | some a =>
    if a.help || a.pe.isNone then (false, [Ev.usage], [])
    else
      match a.peList.find? (fun p => !env.fexists p) with
      | some p => (false, [], [Ev.errNotFound p])
      | none => (true, [], [])

/-- Function `handle_dump_option` of `main.cpp`: the category-to-accessor
dispatch, one `if` per category, in source order. -/
def handle_dump_option (categories : List String) (compute_hashes : Bool) :
    List Ev :=
  let dump_all := categories.contains "all"
  (if dump_all || categories.contains "dos" then [Ev.dumpDos] else []) ++
  (if dump_all || categories.contains "pe" then [Ev.dumpPe] else []) ++
  (if dump_all || categories.contains "opt" then [Ev.dumpOpt] else []) ++
  (if dump_all || categories.contains "sections" then [Ev.dumpSections] else []) ++
  (if dump_all || categories.contains "imports" then [Ev.dumpImports] else []) ++
  (if dump_all || categories.contains "exports" then [Ev.dumpExports] else []) ++
  (if dump_all || categories.contains "resources" then [Ev.dumpResources compute_hashes] else []) ++
  (if dump_all || categories.contains "version" then [Ev.dumpVersion] else []) ++
  (if dump_all || categories.contains "debug" then [Ev.dumpDebug] else []) ++
  (if dump_all || categories.contains "relocations" then [Ev.dumpRelocations] else []) ++
  (if dump_all || categories.contains "tls" then [Ev.dumpTls] else []) ++
  (if dump_all || categories.contains "certificates" then [Ev.dumpCertificates] else [])

/-- Function `get_input_files` of `main.cpp`: with `--recursive`, each
non-directory input is kept and each directory input contributes its
immediate non-directory children; otherwise the inputs are returned
as given. -/
def get_input_files (env : Env) (a : Args) : List String :=
  if a.recursive then
    a.peList.foldl
      (fun targets p =>
        if !env.isDir p then targets ++ [p]
        else targets ++ (env.children p).filter (fun c => !env.isDir c))
      []
  else a.peList

/-- Splitting of one `--dump` argument by `boost::tokenizer` with
separator `","`, which drops empty tokens. -/
def split_commas (s : String) : List String :=
  (s.splitOn ",").filter (fun t => t ≠ "")

/-- The category list built in `main` from all `--dump` arguments. -/
def dump_categories (dump_args : List String) : List String :=
  (dump_args.map split_commas).flatten

/-- The magic-rule fallback of `main` for an unparseable file: the
rules at `resources/magic.yara` are loaded and the scan results printed
only when the target exists and is not a directory (short-circuit of
the source's `&&` chain). -/
def magic_fallback (env : Env) (t : String) : List Ev :=
  if env.fexists t && !env.isDir t && env.loadRules "resources/magic.yara" then
    let m := env.scanMatches "resources/magic.yara" t
    if m.length > 0 then
      Ev.errFileTypeHeader :: m.map (fun mt => Ev.errFileType (metaD mt "description"))
    else []
  else []

/-- The loop body of `main` for a target whose PE parsed: dump (or
summary), resource extraction, hashes, PEiD matches, ClamAV matches,
in source order. -/
def valid_stdout (env : Env) (a : Args) (t : String) : List Ev :=
  (match a.dump with
   | some ds => handle_dump_option (dump_categories ds) a.hashes
   | none => [Ev.dumpSummary]) ++
  (match a.extract with
   | some dir => [Ev.extractResources dir]
   | none => []) ++
  (if a.hashes then [Ev.dumpHashes] else []) ++
  (if a.peid then
    let m := env.scanMatches "resources/peid.yara" t
    if m.length > 0 then
      Ev.peidHeader :: m.map (fun mt => Ev.peidMatch (metaD mt "packer_name"))
    else []
  else []) ++
  (if a.clamav then
    let m := env.scanMatches "resources/clamav.yara" t
    if m.length > 0 then
      Ev.clamavHeader :: m.map (fun mt => Ev.clamavMatch (metaD mt "signature"))
    else []
  else [])

/-- One iteration of the analysis loop of `main`, without the trailing
separator: (stdout, stderr).  An invalid PE is reported on stderr,
followed by the magic fallback, and `continue` skips the rest. -/
def process_file (env : Env) (a : Args) (t : String) : List Ev × List Ev :=
  if env.peValid t then (valid_stdout env a t, [])
  else ([], Ev.errParseFail t :: magic_fallback env t)

/-- The analysis loop of `main` over the target list.  The separator is
printed when `it != targets.end() - 1`, i.e. after every target but the
last; the `continue` taken for an invalid PE skips it. -/
def run_targets (env : Env) (a : Args) : List String → List Ev × List Ev
  | [] => ([], [])
  | [t] => process_file env a t
  | t :: t2 :: rest =>
    let r := process_file env a t
    let r2 := run_targets env a (t2 :: rest)
    ((if env.peValid t then r.1 ++ [Ev.separator] else r.1) ++ r2.1,
     r.2 ++ r2.2)

/-- The outcome of one program run: the value returned by `main` and
the two output streams. -/
structure RunResult where
  exitCode : Int
  stdout : List Ev
  stderr : List Ev
deriving Repr, DecidableEq

/-- Function `main` of `main.cpp`: banner, argument validation
(exit −1 on failure), rule loading for `--peid` and `--clamav`
(exit 1 on failure), then the analysis loop, and return 0. -/
def sg_main (env : Env) (cmdline : Option Args) : RunResult :=
  match cmdline with
  | none =>
    { exitCode := -1, stdout := [Ev.banner], stderr := [Ev.errCmdline] }
  | some a =>
    let pr := parse_args env (some a)
    if !pr.1 then
      { exitCode := -1, stdout := Ev.banner :: pr.2.1, stderr := pr.2.2 }
    else if a.peid && !env.loadRules "resources/peid.yara" then
      { exitCode := 1, stdout := [Ev.banner], stderr := [Ev.errPeidLoad] }
    else if a.clamav && !env.loadRules "resources/clamav.yara" then
      { exitCode := 1, stdout := [Ev.banner], stderr := [Ev.errClamavLoad] }
    else
      let r := run_targets env a (get_input_files env a)
      { exitCode := 0, stdout := Ev.banner :: r.1, stderr := r.2 }

/-- Whether the `--peid` and `--clamav` rule bundles (when requested)
load successfully, so that `main` reaches its analysis loop. -/
def rules_ok (env : Env) (a : Args) : Bool :=
  (!a.peid || env.loadRules "resources/peid.yara") &&
  (!a.clamav || env.loadRules "resources/clamav.yara")

/-- The recognized `--dump` categories other than `all`, in the order
`handle_dump_option` tests them. -/
def dump_cats : List String :=
  ["dos", "pe", "opt", "sections", "imports", "exports", "resources",
   "version", "debug", "relocations", "tls", "certificates"]

/-- The dump accessor a recognized category triggers. -/
def accessor2 (compute_hashes : Bool) : String → Option Ev := fun c =>
  if c = "dos" then some Ev.dumpDos
  else if c = "pe" then some Ev.dumpPe
  else if c = "opt" then some Ev.dumpOpt
  else if c = "sections" then some Ev.dumpSections
  else if c = "imports" then some Ev.dumpImports
  else if c = "exports" then some Ev.dumpExports
  else if c = "resources" then some (Ev.dumpResources compute_hashes)
  else if c = "version" then some Ev.dumpVersion
  else if c = "debug" then some Ev.dumpDebug
  else if c = "relocations" then some Ev.dumpRelocations
  else if c = "tls" then some Ev.dumpTls
  else if c = "certificates" then some Ev.dumpCertificates
  else none

/-! Sample environments and argument records used by the witnesses. -/

/-- A small filesystem with one valid PE, one unparseable file and one
directory, with working rule bundles. -/
def envW : Env where
  fexists p := p == "good.exe" || p == "bad.bin" || p == "dir" ||
    p == "dir/a.exe" || p == "dir/sub" || p == "dir/b.bin"
  isDir p := p == "dir" || p == "dir/sub"
  children p := if p == "dir" then ["dir/a.exe", "dir/sub", "dir/b.bin"] else []
  peValid p := p == "good.exe" || p == "dir/a.exe"
  loadRules _ := true
  scanMatches rf p :=
    if rf == "resources/peid.yara" && p == "good.exe" then
      [[("packer_name", "UPX")]]
    else if rf == "resources/clamav.yara" && p == "good.exe" then
      [[("signature", "Eicar-Test")]]
    else if rf == "resources/magic.yara" then
      [[("description", "data")]]
    else []

/-- Like `envW`, but the PEiD rule bundle fails to load. -/
def envNoPeid : Env :=
  { envW with loadRules := fun f => f != "resources/peid.yara" }

/-- Like `envW`, but the ClamAV rule bundle fails to load. -/
def envNoClamav : Env :=
  { envW with loadRules := fun f => f != "resources/clamav.yara" }

/-- A run on the single valid PE, no options. -/
def argsBase : Args where
  help := false
  pe := some ["good.exe"]
  recursive := false
  dump := none
  hashes := false
  extract := none
  peid := false
  clamav := false

/-- Claim C2 theorem. For a run whose arguments validate, if `--peid`
(resp. `--clamav`) is given and its rule bundle fails to load, `main`
returns 1 with the load error as the only stderr output and nothing but
the banner on stdout — no input file was analyzed. -/
theorem C2_rule_load_failure_exits_one (env : Env) (a : Args)
    (hp : (parse_args env (some a)).1 = true)
    (h : (a.peid = true ∧ env.loadRules "resources/peid.yara" = false) ∨
         (a.clamav = true ∧ env.loadRules "resources/clamav.yara" = false)) :
    (sg_main env (some a)).exitCode = 1 ∧
    ((sg_main env (some a)).stderr = [Ev.errPeidLoad] ∨
     (sg_main env (some a)).stderr = [Ev.errClamavLoad]) ∧
    (sg_main env (some a)).stdout = [Ev.banner] := by
  rcases h with ⟨hpeid, hload⟩ | ⟨hclam, hload⟩
  · simp [sg_main, hp, hpeid, hload]
  · cases hpd : (a.peid && !env.loadRules "resources/peid.yara")
    · simp [sg_main, hp, hpd, hclam, hload]
    · simp [sg_main, hp, hpd]

/-- Claim C2 witness: a concrete run with `--peid` whose PEiD rules do
not load exits with code 1 before any analysis. -/
theorem C2_witness :
    (parse_args envNoPeid (some { argsBase with peid := true })).1 = true ∧
    ({ argsBase with peid := true } : Args).peid = true ∧
    envNoPeid.loadRules "resources/peid.yara" = false ∧
    ((sg_main envNoPeid (some { argsBase with peid := true })).exitCode = 1 ∧
     ((sg_main envNoPeid (some { argsBase with peid := true })).stderr = [Ev.errPeidLoad] ∨
      (sg_main envNoPeid (some { argsBase with peid := true })).stderr = [Ev.errClamavLoad]) ∧
     (sg_main envNoPeid (some { argsBase with peid := true })).stdout = [Ev.banner]) :=
  ⟨by decide, rfl, by decide,
   C2_rule_load_failure_exits_one envNoPeid { argsBase with peid := true }
     (by decide) (Or.inl ⟨rfl, by decide⟩)⟩

/-- Claim C3 theorem. An invocation whose command line throws a parse
error, or that names no input file, makes `main` return −1; any run
that passes argument validation and loads its requested rule bundles
completes the analysis loop and returns 0, whatever the per-file
outcomes were. -/
theorem C3_exit_codes (env : Env) (cmdline : Option Args) :
    ((cmdline = none ∨ ∃ a, cmdline = some a ∧ a.pe = none) →
      (sg_main env cmdline).exitCode = -1) ∧
    (∀ a, cmdline = some a → (parse_args env (some a)).1 = true →
      rules_ok env a = true → (sg_main env cmdline).exitCode = 0) := by
  constructor
  · rintro (rfl | ⟨a, rfl, hpe⟩)
    · rfl
    · simp [sg_main, parse_args, hpe]
  · rintro a rfl hp hr
    simp only [rules_ok, Bool.and_eq_true, Bool.or_eq_true] at hr
    have h1 : (a.peid && !env.loadRules "resources/peid.yara") = false := by
      rcases hr.1 with h | h
      · rw [Bool.not_eq_true'] at h; simp [h]
      · simp [h]
    have h2 : (a.clamav && !env.loadRules "resources/clamav.yara") = false := by
      rcases hr.2 with h | h
      · rw [Bool.not_eq_true'] at h; simp [h]
      · simp [h]
    simp [sg_main, hp, h1, h2]

/-- Claim C3 witness: a run with an unparseable command line returns −1
and a concrete full run returns 0. -/
theorem C3_witness :
    ((sg_main envW none).exitCode = -1) ∧
    ((parse_args envW (some argsBase)).1 = true ∧ rules_ok envW argsBase = true ∧
     (sg_main envW (some argsBase)).exitCode = 0) :=
  ⟨(C3_exit_codes envW none).1 (Or.inl rfl),
   by decide, by decide,
   (C3_exit_codes envW (some argsBase)).2 argsBase rfl (by decide) (by decide)⟩

/-- Claim C8 theorem. If some input file named on the command line does
not exist, argument validation fails and `main` returns −1; stdout
holds at most the banner and the usage text, so no input — existing or
not — was analyzed. -/
theorem C8_missing_input_aborts (env : Env) (a : Args) (p : String)
    (hmem : p ∈ a.peList) (hne : env.fexists p = false) :
    (sg_main env (some a)).exitCode = -1 ∧
    ∀ e ∈ (sg_main env (some a)).stdout, e = Ev.banner ∨ e = Ev.usage := by
  by_cases hc : (a.help || a.pe.isNone) = true
  · simp [sg_main, parse_args, hc]
  · cases hfind : a.peList.find? (fun q => !env.fexists q) with
    | none =>
      exfalso
      have := List.find?_eq_none.1 hfind p hmem
      simp [hne] at this
    | some q =>
      simp [sg_main, parse_args, hc, hfind]

/-- Claim C8 witness: naming one existing and one missing file exits
with −1 and only the banner printed. -/
theorem C8_witness :
    ("missing.exe" ∈ ({ argsBase with pe := some ["good.exe", "missing.exe"] } : Args).peList ∧
     envW.fexists "missing.exe" = false) ∧
    ((sg_main envW (some { argsBase with pe := some ["good.exe", "missing.exe"] })).exitCode = -1 ∧
     ∀ e ∈ (sg_main envW (some { argsBase with pe := some ["good.exe", "missing.exe"] })).stdout,
       e = Ev.banner ∨ e = Ev.usage) :=
  ⟨⟨by decide, by decide⟩,
   C8_missing_input_aborts envW { argsBase with pe := some ["good.exe", "missing.exe"] }
     "missing.exe" (by decide) (by decide)⟩

/-- Claim C9 theorem. With `--help` given — regardless of the other
arguments — or with no input file present, the program prints the usage
description, returns −1, and performs no analysis (stdout is exactly
the banner and the usage, stderr is empty). -/
theorem C9_help_prints_usage (env : Env) (a : Args)
    (h : a.help = true ∨ a.pe = none) :
    (sg_main env (some a)).exitCode = -1 ∧
    (sg_main env (some a)).stdout = [Ev.banner, Ev.usage] ∧
    (sg_main env (some a)).stderr = [] := by
  have hc : (a.help || a.pe.isNone) = true := by
    rcases h with h | h <;> simp [h]
  simp [sg_main, parse_args, hc]

/-- Claim C9 witness: `--help` together with a valid input file still
prints the usage and exits −1. -/
theorem C9_witness :
    (({ argsBase with help := true } : Args).help = true ∨
     ({ argsBase with help := true } : Args).pe = none) ∧
    ((sg_main envW (some { argsBase with help := true })).exitCode = -1 ∧
     (sg_main envW (some { argsBase with help := true })).stdout = [Ev.banner, Ev.usage] ∧
     (sg_main envW (some { argsBase with help := true })).stderr = []) :=
  ⟨Or.inl rfl,
   C9_help_prints_usage envW { argsBase with help := true } (Or.inl rfl)⟩

/-- Membership test of a category is unaffected by removing a different
string from the category list. -/
theorem contains_erase_middle (l1 l2 : List String) (s c : String) (hne : c ≠ s) :
    (l1 ++ s :: l2).contains c = (l1 ++ l2).contains c := by
  induction l1 with
  | nil => simp [List.contains_cons, hne]
  | cons x xs ih => simp [List.contains_cons, ih, hne]

/-- The exit code of `main` never depends on the `--dump` arguments. -/
theorem exitCode_ignores_dump (env : Env) (a : Args) (d : Option (List String)) :
    (sg_main env (some { a with dump := d })).exitCode =
      (sg_main env (some a)).exitCode := by
  have hpa : parse_args env (some { a with dump := d }) = parse_args env (some a) := rfl
  by_cases hp : (parse_args env (some a)).1 = true
  · by_cases h1 : (a.peid && !env.loadRules "resources/peid.yara") = true
    · simp [sg_main, hpa, hp, h1]
    · by_cases h2 : (a.clamav && !env.loadRules "resources/clamav.yara") = true
      · simp [sg_main, hpa, hp, h1, h2]
      · simp [sg_main, hpa, hp, h1, h2]
  · simp [sg_main, hpa, hp]

/-- Claim C10 theorem. A `--dump` category string outside the
recognized set (including `all`) is silently ignored: deleting it from
the category list leaves the sequence of triggered dump accessors
unchanged — so it triggers none itself while the recognized categories
around it still do — and the exit code of the run is unaffected. -/
theorem C10_unrecognized_dump_ignored (env : Env) (a : Args)
    (l1 l2 : List String) (s : String) (ch : Bool)
    (hs : s ∉ "all" :: dump_cats) :
    handle_dump_option (l1 ++ s :: l2) ch = handle_dump_option (l1 ++ l2) ch ∧
    (sg_main env (some { a with dump := some (l1 ++ s :: l2) })).exitCode =
      (sg_main env (some { a with dump := some (l1 ++ l2) })).exitCode := by
  simp only [dump_cats, List.mem_cons, List.not_mem_nil, or_false, not_or] at hs
  obtain ⟨h0, h1, h2, h3, h4, h5, h6, h7, h8, h9, h10, h11, h12⟩ := hs
  constructor
  · simp only [handle_dump_option]
    rw [contains_erase_middle l1 l2 s "all" (Ne.symm h0),
        contains_erase_middle l1 l2 s "dos" (Ne.symm h1),
        contains_erase_middle l1 l2 s "pe" (Ne.symm h2),
        contains_erase_middle l1 l2 s "opt" (Ne.symm h3),
        contains_erase_middle l1 l2 s "sections" (Ne.symm h4),
        contains_erase_middle l1 l2 s "imports" (Ne.symm h5),
        contains_erase_middle l1 l2 s "exports" (Ne.symm h6),
        contains_erase_middle l1 l2 s "resources" (Ne.symm h7),
        contains_erase_middle l1 l2 s "version" (Ne.symm h8),
        contains_erase_middle l1 l2 s "debug" (Ne.symm h9),
        contains_erase_middle l1 l2 s "relocations" (Ne.symm h10),
        contains_erase_middle l1 l2 s "tls" (Ne.symm h11),
        contains_erase_middle l1 l2 s "certificates" (Ne.symm h12)]
  · exact exitCode_ignores_dump env { a with dump := some (l1 ++ l2) }
      (some (l1 ++ s :: l2))

/-- Claim C10 witness: the unrecognized category `bogus` between `dos`
and `tls` changes neither the dumped accessors nor the exit code. -/
theorem C10_witness :
    ("bogus" ∉ "all" :: dump_cats) ∧
    (handle_dump_option (["dos"] ++ "bogus" :: ["tls"]) false =
       handle_dump_option (["dos"] ++ ["tls"]) false ∧
     (sg_main envW (some { argsBase with dump := some (["dos"] ++ "bogus" :: ["tls"]) })).exitCode =
       (sg_main envW (some { argsBase with dump := some (["dos"] ++ ["tls"]) })).exitCode) :=
  ⟨by decide,
   C10_unrecognized_dump_ignored envW argsBase ["dos"] ["tls"] "bogus" false (by decide)⟩

/-- Membership in a conditional singleton block of `handle_dump_option`. -/
theorem mem_cond_singleton (b : Bool) (x e : Ev) :
    (x ∈ if b = true then [e] else ([] : List Ev)) ↔ (b = true ∧ x = e) := by
  cases b <;> simp

/-- Claim C4 theorem. The `--dump` arguments are split on commas into
categories and handed to the dump dispatch; the category `all` triggers
every dump accessor in source order; a recognized category's accessor
runs exactly when `all` or that category is present; and without
`--dump` the loop body of a valid PE starts with the summary dump. -/
theorem C4_dump_option (env : Env) (a : Args) (t : String)
    (ds : List String) (c : String) (e : Ev)
    (hc : c ∈ dump_cats) (he : accessor2 a.hashes c = some e) :
    (a.dump = some ds → env.peValid t = true →
      ∃ rest, (process_file env a t).1 =
        handle_dump_option (dump_categories ds) a.hashes ++ rest) ∧
    ((dump_categories ds).contains "all" = true →
      handle_dump_option (dump_categories ds) a.hashes =
        dump_cats.filterMap (accessor2 a.hashes)) ∧
    (e ∈ handle_dump_option (dump_categories ds) a.hashes ↔
      ((dump_categories ds).contains "all" = true ∨
       (dump_categories ds).contains c = true)) ∧
    (a.dump = none → env.peValid t = true →
      ∃ rest, (process_file env a t).1 = Ev.dumpSummary :: rest) := by
  refine ⟨?_, ?_, ?_, ?_⟩
  · intro hd hv
    simp [process_file, hv, valid_stdout, hd]
  · intro hall
    have hall2 : "all" ∈ dump_categories ds := by simpa using hall
    simp [handle_dump_option, hall2, dump_cats, accessor2]
  · simp only [dump_cats] at hc
    fin_cases hc <;>
      (simp [accessor2] at he; subst he;
       simp [handle_dump_option, mem_cond_singleton, List.mem_append])
  · intro hd hv
    simp [process_file, hv, valid_stdout, hd]

/-- A run on the valid PE with `--dump dos,tls`. -/
def argsDump : Args := { argsBase with dump := some ["dos,tls"] }

/-- Claim C4 witness: with `--dump dos,tls` on a valid PE, the comma
split feeds the dispatch and the `dos` accessor fires exactly when
`all` or `dos` is among the categories. -/
theorem C4_witness :
    ("dos" ∈ dump_cats ∧ accessor2 argsDump.hashes "dos" = some Ev.dumpDos) ∧
    ((argsDump.dump = some ["dos,tls"] → envW.peValid "good.exe" = true →
       ∃ rest, (process_file envW argsDump "good.exe").1 =
         handle_dump_option (dump_categories ["dos,tls"]) argsDump.hashes ++ rest) ∧
     ((dump_categories ["dos,tls"]).contains "all" = true →
       handle_dump_option (dump_categories ["dos,tls"]) argsDump.hashes =
         dump_cats.filterMap (accessor2 argsDump.hashes)) ∧
     (Ev.dumpDos ∈ handle_dump_option (dump_categories ["dos,tls"]) argsDump.hashes ↔
       ((dump_categories ["dos,tls"]).contains "all" = true ∨
        (dump_categories ["dos,tls"]).contains "dos" = true)) ∧
     (argsDump.dump = none → envW.peValid "good.exe" = true →
       ∃ rest, (process_file envW argsDump "good.exe").1 = Ev.dumpSummary :: rest)) :=
  ⟨⟨by decide, by decide⟩,
   C4_dump_option envW argsDump "good.exe" ["dos,tls"] "dos" Ev.dumpDos
     (by decide) (by decide)⟩

/-- The target accumulation loop of `get_input_files`, rephrased as a
flattened map over the inputs. -/
theorem get_input_files_recursive (env : Env) (a : Args)
    (hr : a.recursive = true) :
    get_input_files env a =
      (a.peList.map (fun p =>
        if env.isDir p then (env.children p).filter (fun c => !env.isDir c)
        else [p])).flatten := by
  have key : ∀ (l init : List String),
      l.foldl (fun targets p =>
        if !env.isDir p then targets ++ [p]
        else targets ++ (env.children p).filter (fun c => !env.isDir c)) init =
      init ++ (l.map (fun p =>
        if env.isDir p then (env.children p).filter (fun c => !env.isDir c)
        else [p])).flatten := by
    intro l
    induction l with
    | nil => simp
    | cons x xs ih =>
      intro init
      rw [List.foldl_cons, ih]
      cases hx : env.isDir x <;> simp [hx, List.append_assoc]
  unfold get_input_files
  rw [if_pos hr]
  simpa using key a.peList []

/-- Claim C5 theorem. With `--recursive`, the analyzed targets are each
non-directory input itself plus, for each directory input, exactly its
immediate non-directory children; without it, exactly the inputs as
given. -/
theorem C5_recursive_targets (env : Env) (a : Args) (t : String) :
    (a.recursive = true →
      (t ∈ get_input_files env a ↔
        ∃ p ∈ a.peList,
          (env.isDir p = false ∧ t = p) ∨
          (env.isDir p = true ∧ t ∈ env.children p ∧ env.isDir t = false))) ∧
    (a.recursive = false → get_input_files env a = a.peList) := by
  constructor
  · intro hr
    rw [get_input_files_recursive env a hr]
    simp only [List.mem_flatten, List.mem_map]
    constructor
    · rintro ⟨l, ⟨p, hp, rfl⟩, ht⟩
      refine ⟨p, hp, ?_⟩
      cases hdir : env.isDir p
      · simp [hdir] at ht
        exact Or.inl ⟨rfl, ht⟩
      · simp [hdir] at ht
        exact Or.inr ⟨rfl, ht.1, ht.2⟩
    · rintro ⟨p, hp, ⟨hdir, rfl⟩ | ⟨hdir, hmem, hnd⟩⟩
      · exact ⟨[t], ⟨t, hp, by simp [hdir]⟩, by simp⟩
      · exact ⟨(env.children p).filter (fun c => !env.isDir c),
          ⟨p, hp, by simp [hdir]⟩, by simp [hmem, hnd]⟩
  · intro hr
    simp [get_input_files, hr]

/-- A recursive run over one plain file and one directory. -/
def argsRec : Args :=
  { argsBase with pe := some ["good.exe", "dir"], recursive := true }

/-- Claim C5 witness: in the recursive run, the directory child
`dir/a.exe` is a target because it is a non-directory child of `dir`. -/
theorem C5_witness :
    (argsRec.recursive = true →
      ("dir/a.exe" ∈ get_input_files envW argsRec ↔
        ∃ p ∈ argsRec.peList,
          (envW.isDir p = false ∧ "dir/a.exe" = p) ∨
          (envW.isDir p = true ∧ "dir/a.exe" ∈ envW.children p ∧
           envW.isDir "dir/a.exe" = false))) ∧
    (argsRec.recursive = false → get_input_files envW argsRec = argsRec.peList) :=
  C5_recursive_targets envW argsRec "dir/a.exe"

/-- Everything a target contributes to stderr during the loop stays in
the run's stderr. -/
theorem run_targets_stderr_mem (env : Env) (a : Args) (ts : List String)
    (t : String) (e : Ev) (ht : t ∈ ts)
    (he : e ∈ (process_file env a t).2) :
    e ∈ (run_targets env a ts).2 := by
  induction ts with
  | nil => cases ht
  | cons x xs ih =>
    cases xs with
    | nil =>
      rw [List.mem_singleton] at ht
      subst ht
      simpa [run_targets] using he
    | cons y ys =>
      cases ht with
      | head => simp [run_targets]; exact Or.inl he
      | tail _ ht2 => simp [run_targets]; exact Or.inr (ih ht2)

/-- The stdout block of every target is a contiguous segment of the
run's stdout. -/
theorem run_targets_stdout_split (env : Env) (a : Args) (ts : List String)
    (t : String) (ht : t ∈ ts) :
    ∃ pre post, (run_targets env a ts).1 =
      pre ++ (process_file env a t).1 ++ post := by
  induction ts with
  | nil => cases ht
  | cons x xs ih =>
    cases xs with
    | nil =>
      rw [List.mem_singleton] at ht
      subst ht
      exact ⟨[], [], by simp [run_targets]⟩
    | cons y ys =>
      cases ht with
      | head =>
        cases hv : env.peValid t
        · exact ⟨[], (run_targets env a (y :: ys)).1,
            by simp [run_targets, hv]⟩
        · exact ⟨[], [Ev.separator] ++ (run_targets env a (y :: ys)).1,
            by simp [run_targets, hv]⟩
      | tail _ ht2 =>
        obtain ⟨pre, post, hsplit⟩ := ih ht2
        refine ⟨(if env.peValid x then
            (process_file env a x).1 ++ [Ev.separator]
          else (process_file env a x).1) ++ pre, post, ?_⟩
        cases hv : env.peValid x <;>
          simp [run_targets, hv, hsplit, List.append_assoc]

/-- When the requested rule bundles load, neither fatal branch of
`main` fires. -/
theorem rules_ok_branches (env : Env) (a : Args)
    (hr : rules_ok env a = true) :
    (a.peid && !env.loadRules "resources/peid.yara") = false ∧
    (a.clamav && !env.loadRules "resources/clamav.yara") = false := by
  simp only [rules_ok, Bool.and_eq_true, Bool.or_eq_true] at hr
  constructor
  · rcases hr.1 with h | h
    · rw [Bool.not_eq_true'] at h; simp [h]
    · simp [h]
  · rcases hr.2 with h | h
    · rw [Bool.not_eq_true'] at h; simp [h]
    · simp [h]

/-- A run whose arguments validate and whose rule bundles load reaches
the analysis loop and returns 0 with the loop's two output streams. -/
theorem sg_main_run (env : Env) (a : Args)
    (hp : (parse_args env (some a)).1 = true)
    (hr : rules_ok env a = true) :
    sg_main env (some a) =
      { exitCode := 0,
        stdout := Ev.banner :: (run_targets env a (get_input_files env a)).1,
        stderr := (run_targets env a (get_input_files env a)).2 } := by
  obtain ⟨h1, h2⟩ := rules_ok_branches env a hr
  simp [sg_main, hp, h1, h2]

/-- Claim C1 theorem (amended). Every analyzed target whose PE parsing
fails is reported as unparseable on stderr, the run continues and still
exits with code 0; and when the target exists, is not a directory, and
the magic rule bundle at `resources/magic.yara` loads, the
`description` metadata of every magic match is printed on stderr. -/
theorem C1_unparseable_reported (env : Env) (a : Args) (t : String)
    (hp : (parse_args env (some a)).1 = true)
    (hr : rules_ok env a = true)
    (ht : t ∈ get_input_files env a)
    (hv : env.peValid t = false) :
    Ev.errParseFail t ∈ (sg_main env (some a)).stderr ∧
    (sg_main env (some a)).exitCode = 0 ∧
    (env.fexists t = true → env.isDir t = false →
      env.loadRules "resources/magic.yara" = true →
      ∀ mt ∈ env.scanMatches "resources/magic.yara" t,
        Ev.errFileType (metaD mt "description") ∈ (sg_main env (some a)).stderr) := by
  rw [sg_main_run env a hp hr]
  refine ⟨?_, rfl, ?_⟩
  · exact run_targets_stderr_mem env a _ t _ ht (by simp [process_file, hv])
  · intro hex hdir hload mt hmt
    have hm : (env.scanMatches "resources/magic.yara" t).length > 0 :=
      List.length_pos.2 (List.ne_nil_of_mem hmt)
    have hfall : Ev.errFileType (metaD mt "description") ∈ magic_fallback env t := by
      unfold magic_fallback
      rw [hex, hdir, hload]
      simp [hm]
      exact ⟨mt, hmt, rfl⟩
    have hpf : (process_file env a t).2 = Ev.errParseFail t :: magic_fallback env t := by
      simp [process_file, hv]
    exact run_targets_stderr_mem env a _ t _ ht
      (by rw [hpf]; exact List.mem_cons_of_mem _ hfall)

/-- A run naming the directory `dir` as its only input. -/
def argsDir : Args := { argsBase with pe := some ["dir"] }

/-- Claim C1 counterexample: a directory input exists and fails PE
parsing, the magic rules load and would produce a match with a
`description`, yet the driver never prints it — the fallback is skipped
for directories — so the claim as stated is false. -/
theorem C1_counterexample :
    envW.peValid "dir" = false ∧
    envW.loadRules "resources/magic.yara" = true ∧
    envW.scanMatches "resources/magic.yara" "dir" = [[("description", "data")]] ∧
    (sg_main envW (some argsDir)).exitCode = 0 ∧
    Ev.errParseFail "dir" ∈ (sg_main envW (some argsDir)).stderr ∧
    Ev.errFileType "data" ∉ (sg_main envW (some argsDir)).stderr := by
  decide

/-- A run naming one unparseable file and one valid PE. -/
def argsTwo : Args := { argsBase with pe := some ["bad.bin", "good.exe"] }

/-- Claim C1 witness: the unparseable regular file `bad.bin` is
reported, its magic match description is printed, and the run exits 0. -/
theorem C1_witness :
    ((parse_args envW (some argsTwo)).1 = true ∧
     rules_ok envW argsTwo = true ∧
     "bad.bin" ∈ get_input_files envW argsTwo ∧
     envW.peValid "bad.bin" = false) ∧
    (Ev.errParseFail "bad.bin" ∈ (sg_main envW (some argsTwo)).stderr ∧
     (sg_main envW (some argsTwo)).exitCode = 0 ∧
     (envW.fexists "bad.bin" = true → envW.isDir "bad.bin" = false →
       envW.loadRules "resources/magic.yara" = true →
       ∀ mt ∈ envW.scanMatches "resources/magic.yara" "bad.bin",
         Ev.errFileType (metaD mt "description") ∈ (sg_main envW (some argsTwo)).stderr)) :=
  ⟨⟨by decide, by decide, by decide, by decide⟩,
   C1_unparseable_reported envW argsTwo "bad.bin"
     (by decide) (by decide) (by decide) (by decide)⟩

/-- A contiguous-segment predicate on event lists: `seg` occurs inside
`l` as one uninterrupted run, preserving its internal order. -/
def seg_in (seg l : List Ev) : Prop := ∃ pre post, l = pre ++ seg ++ post

/-- A segment of `l` is a segment of any extension of `l` on both
sides. -/
theorem seg_in_extend (seg l pre post : List Ev) (h : seg_in seg l) :
    seg_in seg (pre ++ l ++ post) := by
  obtain ⟨p1, p2, rfl⟩ := h
  exact ⟨pre ++ p1, p2 ++ post, by simp [List.append_assoc]⟩

/-- A segment survives consing an element in front. -/
theorem seg_in_cons (seg l : List Ev) (e : Ev) (h : seg_in seg l) :
    seg_in seg (e :: l) := by
  obtain ⟨p1, p2, rfl⟩ := h
  exact ⟨e :: p1, p2, by simp⟩

/-- With `--peid` and a non-empty match list, the PEiD header and the
`packer_name` of every match, in match order, form a segment of the
valid-PE loop body. -/
theorem peid_seg_in_valid_stdout (env : Env) (a : Args) (t : String)
    (hpeid : a.peid = true)
    (hm : env.scanMatches "resources/peid.yara" t ≠ []) :
    seg_in (Ev.peidHeader ::
        (env.scanMatches "resources/peid.yara" t).map
          (fun mt => Ev.peidMatch (metaD mt "packer_name")))
      (valid_stdout env a t) := by
  have hlen : (env.scanMatches "resources/peid.yara" t).length > 0 :=
    List.length_pos.2 hm
  refine ⟨(match a.dump with
      | some ds => handle_dump_option (dump_categories ds) a.hashes
      | none => [Ev.dumpSummary]) ++
      ((match a.extract with
        | some dir => [Ev.extractResources dir]
        | none => []) ++
       (if a.hashes then [Ev.dumpHashes] else [])),
    (if a.clamav then
      let m := env.scanMatches "resources/clamav.yara" t
      if m.length > 0 then
        Ev.clamavHeader :: m.map (fun mt => Ev.clamavMatch (metaD mt "signature"))
      else []
    else []), ?_⟩
  unfold valid_stdout
  rw [hpeid]
  simp [hlen, List.append_assoc]

/-- With `--clamav` and a non-empty match list, the ClamAV header and
the `signature` of every match, in match order, form a segment of the
valid-PE loop body. -/
theorem clamav_seg_in_valid_stdout (env : Env) (a : Args) (t : String)
    (hclam : a.clamav = true)
    (hm : env.scanMatches "resources/clamav.yara" t ≠ []) :
    seg_in (Ev.clamavHeader ::
        (env.scanMatches "resources/clamav.yara" t).map
          (fun mt => Ev.clamavMatch (metaD mt "signature")))
      (valid_stdout env a t) := by
  have hlen : (env.scanMatches "resources/clamav.yara" t).length > 0 :=
    List.length_pos.2 hm
  refine ⟨(match a.dump with
      | some ds => handle_dump_option (dump_categories ds) a.hashes
      | none => [Ev.dumpSummary]) ++
      ((match a.extract with
        | some dir => [Ev.extractResources dir]
        | none => []) ++
       ((if a.hashes then [Ev.dumpHashes] else []) ++
        (if a.peid then
          let m := env.scanMatches "resources/peid.yara" t
          if m.length > 0 then
            Ev.peidHeader :: m.map (fun mt => Ev.peidMatch (metaD mt "packer_name"))
          else []
        else []))),
    [], ?_⟩
  unfold valid_stdout
  rw [hclam]
  simp [hlen, List.append_assoc]

/-- Claim C6 theorem. For every analyzed target whose PE parses, with
`--peid` (resp. `--clamav`) and a non-empty match list, the run's
stdout contains the signature header followed immediately by the
`packer_name` (resp. `signature`) metadata of every match, in
match-list order. -/
theorem C6_signature_output (env : Env) (a : Args) (t : String)
    (hp : (parse_args env (some a)).1 = true)
    (hr : rules_ok env a = true)
    (ht : t ∈ get_input_files env a)
    (hv : env.peValid t = true) :
    (a.peid = true → env.scanMatches "resources/peid.yara" t ≠ [] →
      seg_in (Ev.peidHeader ::
          (env.scanMatches "resources/peid.yara" t).map
            (fun mt => Ev.peidMatch (metaD mt "packer_name")))
        (sg_main env (some a)).stdout) ∧
    (a.clamav = true → env.scanMatches "resources/clamav.yara" t ≠ [] →
      seg_in (Ev.clamavHeader ::
          (env.scanMatches "resources/clamav.yara" t).map
            (fun mt => Ev.clamavMatch (metaD mt "signature")))
        (sg_main env (some a)).stdout) := by
  rw [sg_main_run env a hp hr]
  obtain ⟨pre, post, hsplit⟩ := run_targets_stdout_split env a _ t ht
  have hpf : (process_file env a t).1 = valid_stdout env a t := by
    simp [process_file, hv]
  constructor
  · intro hpeid hm
    apply seg_in_cons
    show seg_in _ (run_targets env a (get_input_files env a)).1
    rw [hsplit, hpf]
    exact seg_in_extend _ _ _ _ (peid_seg_in_valid_stdout env a t hpeid hm)
  · intro hclam hm
    apply seg_in_cons
    show seg_in _ (run_targets env a (get_input_files env a)).1
    rw [hsplit, hpf]
    exact seg_in_extend _ _ _ _ (clamav_seg_in_valid_stdout env a t hclam hm)

/-- A run of the valid PE with both signature scans enabled. -/
def argsScan : Args := { argsBase with peid := true, clamav := true }

/-- Claim C6 witness: on the valid PE with both scans enabled, both
signature segments appear on stdout. -/
theorem C6_witness :
    ((parse_args envW (some argsScan)).1 = true ∧
     rules_ok envW argsScan = true ∧
     "good.exe" ∈ get_input_files envW argsScan ∧
     envW.peValid "good.exe" = true) ∧
    ((argsScan.peid = true → envW.scanMatches "resources/peid.yara" "good.exe" ≠ [] →
       seg_in (Ev.peidHeader ::
           (envW.scanMatches "resources/peid.yara" "good.exe").map
             (fun mt => Ev.peidMatch (metaD mt "packer_name")))
         (sg_main envW (some argsScan)).stdout) ∧
     (argsScan.clamav = true → envW.scanMatches "resources/clamav.yara" "good.exe" ≠ [] →
       seg_in (Ev.clamavHeader ::
           (envW.scanMatches "resources/clamav.yara" "good.exe").map
             (fun mt => Ev.clamavMatch (metaD mt "signature")))
         (sg_main envW (some argsScan)).stdout)) :=
  ⟨⟨by decide, by decide, by decide, by decide⟩,
   C6_signature_output envW argsScan "good.exe"
     (by decide) (by decide) (by decide) (by decide)⟩

/-- The dump dispatch never prints a separator. -/
theorem sep_not_mem_handle_dump (cats : List String) (ch : Bool) :
    Ev.separator ∉ handle_dump_option cats ch := by
  simp [handle_dump_option, mem_cond_singleton]

/-- The dump block never prints a separator. -/
theorem sep_not_mem_dump_block (d : Option (List String)) (ch : Bool) :
    Ev.separator ∉ (match d with
      | some ds => handle_dump_option (dump_categories ds) ch
      | none => [Ev.dumpSummary]) := by
  cases d
  · simp
  · exact sep_not_mem_handle_dump _ _

/-- The extraction block never prints a separator. -/
theorem sep_not_mem_extract_block (x : Option String) :
    Ev.separator ∉ (match x with
      | some dir => [Ev.extractResources dir]
      | none => ([] : List Ev)) := by
  cases x <;> simp

/-- A guarded block without separators never prints one. -/
theorem sep_not_mem_if_block (b : Bool) (l : List Ev)
    (h : Ev.separator ∉ l) :
    Ev.separator ∉ (if b then l else []) := by
  cases b <;> simp [h]

/-- A signature-scan print block never contains a separator. -/
theorem sep_not_mem_scan_block (hd : Ev) (f : YMatch → Ev) (m : List YMatch)
    (hh : hd ≠ Ev.separator) (hf : ∀ x, f x ≠ Ev.separator) :
    Ev.separator ∉ (if m.length > 0 then hd :: m.map f else []) := by
  split
  · intro hmem
    rcases List.mem_cons.1 hmem with h | h
    · exact hh h.symm
    · obtain ⟨x, _, hx⟩ := List.mem_map.1 h
      exact hf x hx
  · simp

/-- The loop body of a valid PE never prints a separator. -/
theorem sep_not_mem_valid_stdout (env : Env) (a : Args) (t : String) :
    Ev.separator ∉ valid_stdout env a t := by
  unfold valid_stdout
  intro hmem
  rcases List.mem_append.1 hmem with hmem2 | h
  · rcases List.mem_append.1 hmem2 with hmem3 | h
    · rcases List.mem_append.1 hmem3 with hmem4 | h
      · rcases List.mem_append.1 hmem4 with h | h
        · exact sep_not_mem_dump_block a.dump a.hashes h
        · exact sep_not_mem_extract_block a.extract h
      · exact sep_not_mem_if_block a.hashes _ (by simp) h
    · refine sep_not_mem_if_block a.peid _ ?_ h
      exact sep_not_mem_scan_block _ _ _ (by simp) (fun x => by simp)
  · refine sep_not_mem_if_block a.clamav _ ?_ h
    exact sep_not_mem_scan_block _ _ _ (by simp) (fun x => by simp)

/-- A single loop iteration prints no separator of its own. -/
theorem process_file_sep_count (env : Env) (a : Args) (t : String) :
    (process_file env a t).1.count Ev.separator = 0 := by
  cases hv : env.peValid t
  · simp [process_file, hv]
  · simp [process_file, hv,
      List.count_eq_zero.2 (sep_not_mem_valid_stdout env a t)]

/-- The number of separators the loop prints is the number of
non-final targets whose PE parsed. -/
theorem run_targets_sep_count (env : Env) (a : Args) (ts : List String) :
    (run_targets env a ts).1.count Ev.separator =
      (ts.dropLast.filter (fun t => env.peValid t)).length := by
  induction ts with
  | nil => simp [run_targets]
  | cons x xs ih =>
    cases xs with
    | nil => simp [run_targets, process_file_sep_count]
    | cons y ys =>
      have hstep : (run_targets env a (x :: y :: ys)).1 =
          (if env.peValid x then (process_file env a x).1 ++ [Ev.separator]
           else (process_file env a x).1) ++
          (run_targets env a (y :: ys)).1 := rfl
      rw [hstep, List.count_append]
      cases hv : env.peValid x <;>
        simp [hv, process_file_sep_count, ih, List.count_append,
          List.dropLast] <;>
        omega

/-- The stdout block one target contributes to the loop output: its
loop-body output, then a separator exactly when the target is not the
last of the `n` targets and its PE parsed. -/
def target_block (env : Env) (a : Args) (n : Nat) : Nat × String → List Ev :=
  fun it =>
    (process_file env a it.2).1 ++
      (if it.1 + 1 < n ∧ env.peValid it.2 = true then [Ev.separator] else [])

/-- The loop's stdout is exactly the concatenation of the per-target
blocks, indexed from `k` within a run of `n` targets in total. -/
theorem run_targets_block_decomp (env : Env) (a : Args) :
    ∀ (ts : List String) (k n : Nat), k + ts.length = n →
      (run_targets env a ts).1 =
        ((ts.enumFrom k).map (target_block env a n)).flatten := by
  intro ts
  induction ts with
  | nil => intro k n hk; simp [run_targets]
  | cons x xs ih =>
    intro k n hk
    cases xs with
    | nil =>
      have hkn : ¬ (k + 1 < n) := by
        simp only [List.length_cons, List.length_nil] at hk
        omega
      simp [run_targets, List.enumFrom, target_block, hkn]
    | cons y ys =>
      have hkn : k + 1 < n := by
        simp only [List.length_cons] at hk
        omega
      have hrec := ih (k + 1) n
        (by simp only [List.length_cons] at hk ⊢; omega)
      have hstep : (run_targets env a (x :: y :: ys)).1 =
          (if env.peValid x then (process_file env a x).1 ++ [Ev.separator]
           else (process_file env a x).1) ++
          (run_targets env a (y :: ys)).1 := rfl
      rw [hstep, hrec]
      cases hv : env.peValid x <;>
        simp [List.enumFrom, target_block, hkn, hv, List.append_assoc]

/-- Claim C7 theorem (amended). In a run that reaches its analysis
loop, stdout is the banner followed by the per-target blocks in input
order, where a block ends in a separator exactly when its target is
not the last and its PE parsed successfully; the loop body itself
never prints a separator, so a separator follows each non-final
successfully parsed target, never the last target, and never a target
whose PE failed to parse, and their total count is the number of
non-final successfully parsed targets. -/
theorem C7_separator_placement (env : Env) (a : Args)
    (hp : (parse_args env (some a)).1 = true)
    (hr : rules_ok env a = true) :
    (sg_main env (some a)).stdout =
      Ev.banner ::
        (((get_input_files env a).enum).map
          (target_block env a (get_input_files env a).length)).flatten ∧
    (∀ t, Ev.separator ∉ (process_file env a t).1) ∧
    (sg_main env (some a)).stdout.count Ev.separator =
      (((get_input_files env a).dropLast).filter
        (fun t => env.peValid t)).length := by
  refine ⟨?_, ?_, ?_⟩
  · rw [sg_main_run env a hp hr]
    show Ev.banner :: (run_targets env a (get_input_files env a)).1 = _
    rw [run_targets_block_decomp env a (get_input_files env a) 0
      (get_input_files env a).length (by simp)]
    rfl
  · intro t
    cases hv : env.peValid t
    · simp [process_file, hv]
    · show Ev.separator ∉ (process_file env a t).1
      rw [process_file, if_pos hv]
      exact sep_not_mem_valid_stdout env a t
  · rw [sg_main_run env a hp hr]
    show (Ev.banner :: (run_targets env a (get_input_files env a)).1).count
        Ev.separator = _
    simp [List.count_cons, run_targets_sep_count]

/-- Claim C7 counterexample: two targets whose first PE fails to parse
produce no separator at all, while the claim demands one between the
two files. -/
theorem C7_counterexample :
    (get_input_files envW argsTwo).length = 2 ∧
    ¬ ((sg_main envW (some argsTwo)).stdout.count Ev.separator =
        (get_input_files envW argsTwo).length - 1) := by
  decide

/-- A run naming the valid PE first and the unparseable file second. -/
def argsTwoR : Args := { argsBase with pe := some ["good.exe", "bad.bin"] }

/-- Claim C7 witness: with the valid PE first, stdout decomposes into
the two target blocks with the single separator closing the first
(non-final, successfully parsed) block and none after the last. -/
theorem C7_witness :
    ((parse_args envW (some argsTwoR)).1 = true ∧
     rules_ok envW argsTwoR = true) ∧
    ((sg_main envW (some argsTwoR)).stdout =
       Ev.banner ::
         (((get_input_files envW argsTwoR).enum).map
           (target_block envW argsTwoR
             (get_input_files envW argsTwoR).length)).flatten ∧
     (∀ t, Ev.separator ∉ (process_file envW argsTwoR t).1) ∧
     (sg_main envW (some argsTwoR)).stdout.count Ev.separator =
       (((get_input_files envW argsTwoR).dropLast).filter
         (fun t => envW.peValid t)).length) :=
  ⟨⟨by decide, by decide⟩,
   C7_separator_placement envW argsTwoR (by decide) (by decide)⟩
